import Mathlib

/-!
Verification of the deezerus ingestion pipeline (`src/deezerus.py`).

The Python source is shallowly embedded: JSON payloads become the inductive
type `JVal`, Python dicts become association lists with Python's
insertion-order update semantics (`dictGet?`, `dictSet`, `dictPop`), remote
reads become oracle functions, `time.sleep` calls are recorded as a list of
delays, and raised exceptions become `Except.error` values.  Each embedded
definition keeps the name of the Python function it models.
-/

set_option maxHeartbeats 1000000

/-- JSON-like values, the payloads returned by the remote service. -/
inductive JVal where
  | null : JVal
  | bool (b : Bool) : JVal
  | num (n : Int) : JVal
  | str (s : String) : JVal
  | obj (fields : List (String × JVal)) : JVal
  | arr (elems : List JVal) : JVal

mutual

/-- Structural equality of JSON values (Python `==`). -/
def JVal.beq : JVal → JVal → Bool
  | .null, .null => true
  | .bool a, .bool b => a == b
  | .num a, .num b => a == b
  | .str a, .str b => a == b
  | .obj fs, .obj gs => JVal.beqFields fs gs
  | .arr xs, .arr ys => JVal.beqElems xs ys
  | _, _ => false

def JVal.beqFields : List (String × JVal) → List (String × JVal) → Bool
  | [], [] => true
  | (k, v) :: rest, (k2, v2) :: rest2 =>
    k == k2 && JVal.beq v v2 && JVal.beqFields rest rest2
  | _, _ => false

def JVal.beqElems : List JVal → List JVal → Bool
  | [], [] => true
  | x :: xs, y :: ys => JVal.beq x y && JVal.beqElems xs ys
  | _, _ => false

end

mutual

theorem JVal.beq_iff : ∀ a b : JVal, JVal.beq a b = true ↔ a = b
  | .null, b => by cases b <;> simp [JVal.beq]
  | .bool a, b => by cases b <;> simp [JVal.beq]
  | .num a, b => by cases b <;> simp [JVal.beq]
  | .str a, b => by cases b <;> simp [JVal.beq]
  | .obj fs, b => by
    cases b <;> simp [JVal.beq]
    exact JVal.beqFields_iff fs _
  | .arr xs, b => by
    cases b <;> simp [JVal.beq]
    exact JVal.beqElems_iff xs _

theorem JVal.beqFields_iff :
    ∀ fs gs : List (String × JVal), JVal.beqFields fs gs = true ↔ fs = gs
  | [], gs => by cases gs <;> simp [JVal.beqFields]
  | (k, v) :: rest, [] => by simp [JVal.beqFields]
  | (k, v) :: rest, (k2, v2) :: rest2 => by
    simp [JVal.beqFields, JVal.beq_iff v v2, JVal.beqFields_iff rest rest2,
      and_assoc]

theorem JVal.beqElems_iff :
    ∀ xs ys : List JVal, JVal.beqElems xs ys = true ↔ xs = ys
  | [], ys => by cases ys <;> simp [JVal.beqElems]
  | x :: xs, [] => by simp [JVal.beqElems]
  | x :: xs, y :: ys => by
    simp [JVal.beqElems, JVal.beq_iff x y, JVal.beqElems_iff xs ys]

end

instance : DecidableEq JVal := fun a b =>
  decidable_of_iff (JVal.beq a b = true) (JVal.beq_iff a b)

/-- Lookup of a key in an association list (first match), the reading half of
Python dict subscripting / `dict.get`. -/
def dictGet? : List (String × JVal) → String → Option JVal
  | [], _ => none
  | (k, v) :: rest, key => if k = key then some v else dictGet? rest key

/-- Python `d[k] = v`: replace the value in place if the key exists, append
otherwise (CPython dicts preserve insertion order on update). -/
def dictSet : List (String × JVal) → String → JVal → List (String × JVal)
  | [], key, v => [(key, v)]
  | (k, w) :: rest, key, v =>
    if k = key then (k, v) :: rest else (k, w) :: dictSet rest key v

/-- Python `d.pop(k, None)`: remove the key if present. -/
def dictPop : List (String × JVal) → String → List (String × JVal)
  | [], _ => []
  | (k, v) :: rest, key =>
    if k = key then dictPop rest key else (k, v) :: dictPop rest key

/-- `v[k]` / `v.get(k)` on a JSON value: a lookup that only succeeds on
objects.  (On non-objects the Python subscript raises; callers of `get?`
that model a raising subscript map `none` to an error.) -/
def JVal.get? : JVal → String → Option JVal
  | .obj fs, key => dictGet? fs key
  | _, _ => none

/-- Python truthiness of a JSON value (`if details:`): empty containers,
zero, the empty string, `None` and `False` are falsy. -/
def isTruthy : JVal → Bool
  | .null => false
  | .bool b => b
  | .num n => decide (n ≠ 0)
  | .str s => decide (s ≠ "")
  | .obj fs => decide (fs ≠ [])
  | .arr xs => decide (xs ≠ [])

/-- The rate-limit test at `deezerus.py:18`:
`"error" in data and data["error"].get("code") == 4`.
(A non-object `error` value is treated as not matching the sentinel.) -/
def isQuotaError (data : JVal) : Bool :=
  match data.get? "error" with
  | some e =>
    match e.get? "code" with
    | some c => decide (c = JVal.num 4)
    | none => false
  | none => false

/-- Result of one call to `fetch_with_retry`: the returned payload or the
raised exception, the number of remote reads issued, and the list of sleep
durations performed, in order. -/
structure FetchOutcome where
  result : Except String JVal
  attempts : Nat
  sleeps : List Nat

/-- The `for attempt in range(max_retries)` loop of `fetch_with_retry`
(`deezerus.py:15-24`).  `responses i` is the payload parsed from the
`i`-th `requests.get`; `remaining` is the number of loop iterations left. -/
def fetchLoop (responses : Nat → JVal) (delay : Nat) :
    Nat → Nat → Nat → List Nat → FetchOutcome
  | 0, _, attempts, sleeps =>
    { result := .error "Max retries exceeded", attempts := attempts, sleeps := sleeps }
  | remaining + 1, i, attempts, sleeps =>
    let data := responses i
    if isQuotaError data then
      fetchLoop responses delay remaining (i + 1) (attempts + 1) (sleeps ++ [delay])
    else
      { result := .ok data, attempts := attempts + 1, sleeps := sleeps }

/-- `fetch_with_retry(url, max_retries=2, delay=5)` (`deezerus.py:11-24`),
with the sequence of parsed responses for the url as the oracle. -/
def fetch_with_retry (responses : Nat → JVal) (max_retries : Nat := 2)
    (delay : Nat := 5) : FetchOutcome :=
  fetchLoop responses delay max_retries 0 0 []

/-- A payload carrying the quota-exceeded error shape. -/
def quotaPayload : JVal := .obj [("error", .obj [("code", .num 4)])]

theorem fetchLoop_allQuota (responses : Nat → JVal) (delay : Nat)
    (h : ∀ i, isQuotaError (responses i) = true) :
    ∀ remaining i attempts sleeps,
      fetchLoop responses delay remaining i attempts sleeps =
        { result := .error "Max retries exceeded", attempts := attempts + remaining,
          sleeps := sleeps ++ List.replicate remaining delay } := by
  intro remaining
  induction remaining with
  | zero => intro i attempts sleeps; simp [fetchLoop]
  | succ r ih =>
    intro i attempts sleeps
    simp only [fetchLoop, h i, if_true]
    rw [ih]
    simp [List.replicate_succ]
    omega

/-- Claim C2: if every fetched response carries the quota-exceeded error
shape, `fetch_with_retry` performs exactly `max_retries` sleeps of the
configured delay and then fails with the quota-exhaustion error instead of
returning a payload. -/
theorem fetch_with_retry_quota_exhaustion (responses : Nat → JVal)
    (max_retries delay : Nat)
    (h : ∀ i, isQuotaError (responses i) = true) :
    fetch_with_retry responses max_retries delay =
      { result := .error "Max retries exceeded", attempts := max_retries,
        sleeps := List.replicate max_retries delay } := by
  unfold fetch_with_retry
  rw [fetchLoop_allQuota responses delay h]
  simp

/-- Witness for C2 at `max_retries = 2`, `delay = 5` and the constant
quota-exceeded response. -/
theorem fetch_with_retry_quota_exhaustion_witness :
    fetch_with_retry (fun _ => quotaPayload) 2 5 =
      { result := .error "Max retries exceeded", attempts := 2, sleeps := [5, 5] } := by
  have hq : isQuotaError quotaPayload = true := by decide
  have h : ∀ i : Nat, isQuotaError ((fun _ => quotaPayload) i) = true := fun _ => hq
  rw [fetch_with_retry_quota_exhaustion (fun _ => quotaPayload) 2 5 h]
  rfl

/-- Counterexample to claim C3: under the default configuration
(`max_retries = 2`) with every response quota-exceeded, `fetch_with_retry`
issues 2 remote read attempts in total, not 3: the loop runs
`range(max_retries)` times and there is no extra first attempt. -/
theorem fetch_with_retry_default_not_three_attempts :
    (fetch_with_retry (fun _ => quotaPayload)).attempts = 2 ∧
      ¬ (fetch_with_retry (fun _ => quotaPayload)).attempts = 3 := by
  constructor <;> decide

/-- Claim C3 (amended): under the default configuration, when every response
carries the quota-exceeded shape, `fetch_with_retry` performs 1 retry after
the first attempt, i.e. issues 2 remote read attempts in total before
failing. -/
theorem fetch_with_retry_default_two_attempts (responses : Nat → JVal)
    (h : ∀ i, isQuotaError (responses i) = true) :
    (fetch_with_retry responses).attempts = 2 ∧
      (fetch_with_retry responses).result = .error "Max retries exceeded" := by
  rw [fetch_with_retry_quota_exhaustion responses 2 5 h]
  exact ⟨rfl, rfl⟩

/-- Witness for the amended C3 at the constant quota-exceeded response. -/
theorem fetch_with_retry_default_two_attempts_witness :
    (fetch_with_retry (fun _ => quotaPayload)).attempts = 2 ∧
      (fetch_with_retry (fun _ => quotaPayload)).result =
        .error "Max retries exceeded" :=
  fetch_with_retry_default_two_attempts (fun _ => quotaPayload) (fun _ => rfl)

/-- Claim C8: a payload whose `error` object carries a code other than the
quota sentinel 4 is returned unchanged on the first attempt, with no retry
and no sleep. -/
theorem fetch_with_retry_other_error_returned (responses : Nat → JVal)
    (max_retries delay : Nat) (e c : JVal)
    (herr : (responses 0).get? "error" = some e)
    (hcode : e.get? "code" = some c)
    (hne : c ≠ JVal.num 4)
    (hpos : 0 < max_retries) :
    fetch_with_retry responses max_retries delay =
      { result := .ok (responses 0), attempts := 1, sleeps := [] } := by
  obtain ⟨r, rfl⟩ := Nat.exists_eq_succ_of_ne_zero (Nat.pos_iff_ne_zero.mp hpos)
  have hq : isQuotaError (responses 0) = false := by
    simp [isQuotaError, herr, hcode, hne]
  unfold fetch_with_retry fetchLoop
  simp [hq]

/-- Witness for C8: an `error` object with code 500 is returned as-is. -/
theorem fetch_with_retry_other_error_returned_witness :
    fetch_with_retry (fun _ => JVal.obj [("error", .obj [("code", .num 500)])]) 2 5 =
      { result := .ok (JVal.obj [("error", .obj [("code", .num 500)])]),
        attempts := 1, sleeps := [] } :=
  fetch_with_retry_other_error_returned
    (fun _ => JVal.obj [("error", .obj [("code", .num 500)])]) 2 5
    (.obj [("code", .num 500)]) (.num 500) rfl rfl (by decide) (by decide)

/-- One entry of a user's playlist listing, as read by `get_playlist_ids`
(`deezerus.py:27-35`): the playlist id and `playlist["creator"]["name"]`. -/
structure PlaylistEntry where
  id : Int
  creatorName : String
deriving DecidableEq

/-- The accumulator loop of Python `max(xs, key=key)`: the running best is
replaced only when a later element's key is strictly greater, so the first
element attaining the maximal key wins. -/
def goMax (key : α → Nat) : α → List α → α
  | best, [] => best
  | best, y :: ys => if key best < key y then goMax key y ys else goMax key best ys

/-- Python `max(xs, key=key)`; `none` models the `ValueError` raised on an
empty sequence. -/
def pyMax (key : α → Nat) : List α → Option α
  | [] => none
  | x :: xs => some (goMax key x xs)

/-- `get_playlist_ids` (`deezerus.py:27-35`), applied to the parsed playlist
listing: picks the most frequent creator name with `max(names, key=names.count)`
and returns the ids of that creator's playlists in listing order.  `none`
models the `ValueError` that `max` raises on an empty listing. -/
def get_playlist_ids (playlist_list : List PlaylistEntry) : Option (List Int) :=
  match pyMax (fun n => (playlist_list.map (fun p => p.creatorName)).count n)
      (playlist_list.map (fun p => p.creatorName)) with
  | none => none
  | some user =>
    some ((playlist_list.filter (fun p => p.creatorName = user)).map (fun p => p.id))

theorem listFind?_congr {p q : α → Bool} (h : ∀ x, p x = q x) :
    ∀ l : List α, l.find? p = l.find? q
  | [] => rfl
  | x :: xs => by
    simp only [List.find?, h x]
    cases q x <;> simp [listFind?_congr h xs]

/-- `goMax` returns exactly the first element of the list whose key is
maximal over the whole list. -/
theorem goMax_eq_find? (key : α → Nat) :
    ∀ (xs : List α) (a : α),
      (a :: xs).find? (fun z => (a :: xs).all (fun y => decide (key y ≤ key z))) =
        some (goMax key a xs)
  | [], a => by simp [goMax]
  | y :: ys, a => by
    by_cases h1 : key a < key y
    · have hstep : goMax key a (y :: ys) = goMax key y ys := by
        simp [goMax, h1]
      have hpt : ∀ z, ((a :: y :: ys).all (fun w => decide (key w ≤ key z))) =
          ((y :: ys).all (fun w => decide (key w ≤ key z))) := by
        intro z
        rw [Bool.eq_iff_iff]
        simp only [List.all_cons, Bool.and_eq_true, decide_eq_true_eq,
          List.all_eq_true]
        constructor
        · rintro ⟨h2, h3⟩; exact h3
        · rintro ⟨h2, h3⟩; exact ⟨by omega, h2, h3⟩
      have ha : ((a :: y :: ys).all (fun w => decide (key w ≤ key a))) = false := by
        apply Bool.eq_false_iff.mpr
        intro hcontra
        simp only [List.all_cons, Bool.and_eq_true, decide_eq_true_eq,
          List.all_eq_true] at hcontra
        obtain ⟨h2, h3, h4⟩ := hcontra
        omega
      rw [hstep]
      have hrec := goMax_eq_find? key ys y
      calc (a :: y :: ys).find? (fun z => (a :: y :: ys).all fun y => decide (key y ≤ key z))
          = (y :: ys).find? (fun z => (a :: y :: ys).all fun y => decide (key y ≤ key z)) := by
            rw [List.find?]; rw [ha]
        _ = (y :: ys).find? (fun z => (y :: ys).all fun y => decide (key y ≤ key z)) :=
            listFind?_congr hpt _
        _ = some (goMax key y ys) := hrec
    · have hstep : goMax key a (y :: ys) = goMax key a ys := by
        simp [goMax, h1]
      have hpt : ∀ z, ((a :: y :: ys).all (fun w => decide (key w ≤ key z))) =
          ((a :: ys).all (fun w => decide (key w ≤ key z))) := by
        intro z
        rw [Bool.eq_iff_iff]
        simp only [List.all_cons, Bool.and_eq_true, decide_eq_true_eq,
          List.all_eq_true]
        constructor
        · rintro ⟨h2, h3, h4⟩; exact ⟨h2, h4⟩
        · rintro ⟨h2, h4⟩; exact ⟨h2, by omega, h4⟩
      rw [hstep]
      have hrec := goMax_eq_find? key ys a
      calc (a :: y :: ys).find? (fun z => (a :: y :: ys).all fun y => decide (key y ≤ key z))
          = (a :: y :: ys).find? (fun z => (a :: ys).all fun y => decide (key y ≤ key z)) :=
            listFind?_congr hpt _
        _ = some (goMax key a ys) := by
            rw [List.find?]
            cases hcase : (a :: ys).all (fun w => decide (key w ≤ key a)) with
            | true =>
              rw [List.find?, hcase] at hrec
              exact hrec
            | false =>
              rw [List.find?]
              have hy : ((a :: ys).all (fun w => decide (key w ≤ key y))) = false := by
                apply Bool.eq_false_iff.mpr
                intro hcontra
                rw [Bool.eq_false_iff] at hcase
                apply hcase
                simp only [List.all_cons, Bool.and_eq_true, decide_eq_true_eq,
                  List.all_eq_true] at hcontra ⊢
                obtain ⟨hay, hall⟩ := hcontra
                refine ⟨le_refl _, fun x hx => ?_⟩
                have := hall x hx
                omega
              rw [hy]
              rw [List.find?, hcase] at hrec
              exact hrec

theorem pyMax_eq_find? (key : α → Nat) (l : List α) (h : l ≠ []) :
    l.find? (fun z => l.all (fun y => decide (key y ≤ key z))) = pyMax key l := by
  cases l with
  | nil => exact absurd rfl h
  | cons a xs => exact goMax_eq_find? key xs a

/-- Claim C4: for a non-empty listing, `get_playlist_ids` returns exactly the
ids of the playlists whose creator name is the most frequent creator name
(ties broken in favour of the first-encountered name in scan order), in the
original listing order. -/
theorem get_playlist_ids_mode (l : List PlaylistEntry) (h : l ≠ []) :
    ∃ u : String,
      ((l.map (fun p => p.creatorName)).find?
        (fun n => (l.map (fun p => p.creatorName)).all
          (fun m => decide ((l.map (fun p => p.creatorName)).count m ≤
            (l.map (fun p => p.creatorName)).count n))) = some u) ∧
      get_playlist_ids l =
        some ((l.filter (fun p => p.creatorName = u)).map (fun p => p.id)) := by
  have hne : l.map (fun p => p.creatorName) ≠ [] := by
    simpa using h
  have hfind := pyMax_eq_find? (fun n => (l.map (fun p => p.creatorName)).count n)
    (l.map (fun p => p.creatorName)) hne
  cases hmax : pyMax (fun n => (l.map (fun p => p.creatorName)).count n)
      (l.map (fun p => p.creatorName)) with
  | none =>
    cases l with
    | nil => exact absurd rfl h
    | cons a xs => simp [pyMax] at hmax
  | some u =>
    refine ⟨u, ?_, ?_⟩
    · rw [hfind, hmax]
    · unfold get_playlist_ids
      rw [hmax]

/-- A small listing: creator "A" owns playlists 1 and 3, creator "B" owns 2. -/
def demoListing : List PlaylistEntry :=
  [⟨1, "A"⟩, ⟨2, "B"⟩, ⟨3, "A"⟩]

/-- Witness for C4 at `demoListing`. -/
theorem get_playlist_ids_mode_witness :
    demoListing ≠ [] ∧
      (∃ u : String,
        ((demoListing.map (fun p => p.creatorName)).find?
          (fun n => (demoListing.map (fun p => p.creatorName)).all
            (fun m => decide ((demoListing.map (fun p => p.creatorName)).count m ≤
              (demoListing.map (fun p => p.creatorName)).count n))) = some u) ∧
        get_playlist_ids demoListing =
          some ((demoListing.filter (fun p => p.creatorName = u)).map (fun p => p.id))) :=
  ⟨by decide, get_playlist_ids_mode demoListing (by decide)⟩

/-- The decimal digit rendering of a natural number, most significant digit
first; this is what core's `Nat.toDigitsCore` computes when given enough
fuel, and hence the character data of `toString (n : Nat)`. -/
def decRep (n : Nat) : List Char :=
  if _h : n < 10 then [Nat.digitChar n]
  else decRep (n / 10) ++ [Nat.digitChar (n % 10)]
termination_by n
decreasing_by
  exact Nat.div_lt_self (by omega) (by omega)

theorem toDigitsCore_eq_decRep :
    ∀ (fuel n : Nat) (acc : List Char), n < fuel →
      Nat.toDigitsCore 10 fuel n acc = decRep n ++ acc := by
  intro fuel
  induction fuel with
  | zero => intro n acc h; omega
  | succ f ih =>
    intro n acc h
    show (if n / 10 = 0 then Nat.digitChar (n % 10) :: acc
      else Nat.toDigitsCore 10 f (n / 10) (Nat.digitChar (n % 10) :: acc)) =
      decRep n ++ acc
    by_cases h10 : n / 10 = 0
    · have hn : n < 10 := by omega
      rw [if_pos h10, decRep, dif_pos hn, Nat.mod_eq_of_lt hn]
      rfl
    · have hn : ¬ n < 10 := by omega
      have hunf : decRep n = decRep (n / 10) ++ [Nat.digitChar (n % 10)] := by
        conv_lhs => rw [decRep]
        rw [dif_neg hn]
      rw [if_neg h10, ih (n / 10) _ (by omega), hunf, List.append_assoc]
      rfl

theorem natRepr_eq_decRep (n : Nat) : Nat.repr n = (decRep n).asString := by
  show (Nat.toDigitsCore 10 (n + 1) n []).asString = (decRep n).asString
  rw [toDigitsCore_eq_decRep (n + 1) n [] (Nat.lt_succ_self n), List.append_nil]

/-- The numeric value of a decimal digit character. -/
def decVal (c : Char) : Nat := c.toNat - 48

/-- Decimal value of a most-significant-first digit string. -/
def evalDigits (l : List Char) : Nat := l.foldl (fun a c => 10 * a + decVal c) 0

theorem decVal_digitChar (m : Nat) (h : m < 10) :
    decVal (Nat.digitChar m) = m := by
  interval_cases m <;> rfl

theorem evalDigits_decRep (n : Nat) : evalDigits (decRep n) = n := by
  induction n using Nat.strong_induction_on with
  | _ n ih =>
    by_cases h : n < 10
    · rw [decRep, dif_pos h]
      show 10 * 0 + decVal (Nat.digitChar n) = n
      rw [decVal_digitChar n h]
      omega
    · rw [decRep, dif_neg h]
      have hdiv : n / 10 < n := Nat.div_lt_self (by omega) (by omega)
      have hrec := ih (n / 10) hdiv
      rw [evalDigits, List.foldl_append]
      rw [evalDigits] at hrec
      rw [hrec]
      show 10 * (n / 10) + decVal (Nat.digitChar (n % 10)) = n
      rw [decVal_digitChar (n % 10) (Nat.mod_lt n (by omega))]
      omega

theorem decRep_inj {m n : Nat} (h : decRep m = decRep n) : m = n := by
  have h2 := congrArg evalDigits h
  rwa [evalDigits_decRep, evalDigits_decRep] at h2

theorem natToString_inj {m n : Nat} (h : toString m = toString n) : m = n := by
  have hm : toString m = (decRep m).asString := natRepr_eq_decRep m
  have hn : toString n = (decRep n).asString := natRepr_eq_decRep n
  rw [hm, hn] at h
  exact decRep_inj (congrArg String.data h)

/-- The dynamic contributor column name used at `deezerus.py:70`:
`f'artist_-j-'` with a decimal index. -/
def artistKey (j : Nat) : String := "artist_" ++ toString j

theorem artistKey_inj {i j : Nat} (h : artistKey i = artistKey j) : i = j := by
  unfold artistKey at h
  have hd := congrArg String.data h
  rw [String.data_append, String.data_append] at hd
  exact natToString_inj (String.ext (List.append_cancel_left hd))

theorem length_artistKey (j : Nat) : 7 ≤ (artistKey j).length := by
  unfold artistKey
  rw [String.length_append]
  have h7 : "artist_".length = 7 := rfl
  omega

theorem ne_artistKey_of_short (s : String) (h : s.length < 7) (j : Nat) :
    s ≠ artistKey j := by
  intro he
  have hlen := congrArg String.length he
  have h7 := length_artistKey j
  omega

theorem dictGet?_set_self (d : List (String × JVal)) (k : String) (v : JVal) :
    dictGet? (dictSet d k v) k = some v := by
  induction d with
  | nil => simp [dictSet, dictGet?]
  | cons p rest ih =>
    obtain ⟨k2, w⟩ := p
    by_cases h : k2 = k
    · simp [dictSet, dictGet?, h]
    · simp [dictSet, dictGet?, h, ih]

theorem dictGet?_set_other (d : List (String × JVal)) (k k2 : String) (v : JVal)
    (h : k2 ≠ k) : dictGet? (dictSet d k v) k2 = dictGet? d k2 := by
  have hne : ¬ (k = k2) := fun he => h he.symm
  induction d with
  | nil => simp [dictSet, dictGet?, hne]
  | cons p rest ih =>
    obtain ⟨k3, w⟩ := p
    by_cases h3 : k3 = k
    · rw [dictSet, if_pos h3, dictGet?, dictGet?]
      have h5 : ¬ (k3 = k2) := by rw [h3]; exact hne
      rw [if_neg h5, if_neg h5]
    · rw [dictSet, if_neg h3, dictGet?, dictGet?]
      by_cases h4 : k3 = k2
      · rw [if_pos h4, if_pos h4]
      · rw [if_neg h4, if_neg h4, ih]

theorem dictSet_self (d : List (String × JVal)) (k : String) (v : JVal)
    (h : dictGet? d k = some v) : dictSet d k v = d := by
  induction d with
  | nil => simp [dictGet?] at h
  | cons p rest ih =>
    obtain ⟨k2, w⟩ := p
    by_cases h2 : k2 = k
    · rw [dictGet?, if_pos h2] at h
      cases h
      simp [dictSet, h2]
    · rw [dictGet?, if_neg h2] at h
      simp [dictSet, h2, ih h]

theorem dictGet?_pop_self (d : List (String × JVal)) (k : String) :
    dictGet? (dictPop d k) k = none := by
  induction d with
  | nil => simp [dictPop, dictGet?]
  | cons p rest ih =>
    obtain ⟨k2, w⟩ := p
    by_cases h : k2 = k
    · simp [dictPop, h, ih]
    · simp [dictPop, dictGet?, h, ih]

theorem dictGet?_pop_other (d : List (String × JVal)) (k k2 : String)
    (h : k2 ≠ k) : dictGet? (dictPop d k) k2 = dictGet? d k2 := by
  induction d with
  | nil => rw [dictPop]
  | cons p rest ih =>
    obtain ⟨k3, w⟩ := p
    by_cases h3 : k3 = k
    · rw [dictPop, if_pos h3, ih, dictGet?]
      have h5 : ¬ (k3 = k2) := by
        rw [h3]; exact fun he => h he.symm
      rw [if_neg h5]
    · rw [dictPop, if_neg h3, dictGet?, dictGet?]
      by_cases h4 : k3 = k2
      · rw [if_pos h4, if_pos h4]
      · rw [if_neg h4, if_neg h4, ih]

/-- Python `track_details.get(k)` on a value that must be a dict: `None`
when the key is absent, `AttributeError` when the receiver is not a dict. -/
def pyGetE (d : JVal) (k : String) : Except String JVal :=
  match d with
  | .obj fs => .ok ((dictGet? fs k).getD .null)
  | _ => .error "AttributeError"

/-- The chain `track_details.get(k, dict()).get(k2)` used for the nested
`artist`/`album` fields (`deezerus.py:57-58`). -/
def pyGetDefaultGet (d : JVal) (k k2 : String) : Except String JVal :=
  match d with
  | .obj fs =>
    match (dictGet? fs k).getD (.obj []) with
    | .obj gs => .ok ((dictGet? gs k2).getD .null)
    | _ => .error "AttributeError"
  | _ => .error "AttributeError"

/-- The comprehension at `deezerus.py:68`:
`[artist["name"] for artist in track_details.get("contributors", [])]`. -/
def contributorNames (d : JVal) : Except String (List JVal) :=
  match d with
  | .obj fs =>
    match (dictGet? fs "contributors").getD (.arr []) with
    | .arr xs => xs.mapM (fun a =>
        match a.get? "name" with
        | some v => Except.ok v
        | none => Except.error "KeyError")
    | _ => .error "TypeError"
  | _ => .error "AttributeError"

/-- The loop at `deezerus.py:69-70`: `for j, artist in enumerate(artists):
new_track_info[f'artist_-j+1-'] = artist`. -/
def addArtists : List (String × JVal) → List JVal → Nat → List (String × JVal)
  | fields, [], _ => fields
  | fields, a :: rest, j => addArtists (dictSet fields (artistKey (j + 1)) a) rest (j + 1)

/-- What a call to `create_new_row` does: return a record (the built dict),
return `None` after catching and logging an error for the given track id,
or let an exception escape. -/
inductive RowResult where
  | record (fields : List (String × JVal)) : RowResult
  | absent (loggedId : JVal) : RowResult
  | raised (msg : String) : RowResult
deriving DecidableEq

/-- Lines 48-52 of `deezerus.py`: `track_details = track`, and in full mode
the per-track detail fetch of the track-detail endpoint for `track['id']`,
followed by `if details: track_details = details`.  The subscript
`track['id']` raises when the id is missing. -/
def resolveDetails (detailOf : JVal → Except String JVal) (track : JVal) :
    Bool → Except String JVal
  | true => do
    let tid ← match track.get? "id" with
      | some v => Except.ok v
      | none => Except.error "KeyError"
    let details ← detailOf tid
    pure (if isTruthy details then details else track)
  | false => pure track

/-- The dict literal at `deezerus.py:54-61` building the six base fields. -/
def baseRecord (td : JVal) : Except String (List (String × JVal)) := do
  let idv ← pyGetE td "id"
  let titlev ← pyGetE td "title"
  let artistv ← pyGetDefaultGet td "artist" "name"
  let albumv ← pyGetDefaultGet td "album" "title"
  let durationv ← pyGetE td "duration"
  let rankv ← pyGetE td "rank"
  pure [("id", idv), ("title", titlev), ("artist", artistv),
    ("album", albumv), ("duration", durationv), ("rank", rankv)]

/-- Lines 62-73 of `deezerus.py`, full mode only: `update` with
`release_date`, `bpm`, `gain`; the contributor columns `artist_-j+1-`;
the `pop("artist_1", None)` when `artist_1` duplicates `artist`; and
`new_track_info[playlist_title] = True`. -/
def fullModeExtend (td : JVal) (base : List (String × JVal))
    (playlist_title : String) : Except String (List (String × JVal)) := do
  let rdv ← pyGetE td "release_date"
  let bpmv ← pyGetE td "bpm"
  let gainv ← pyGetE td "gain"
  let ext := dictSet (dictSet (dictSet base "release_date" rdv) "bpm" bpmv)
    "gain" gainv
  let artists ← contributorNames td
  let withArtists := addArtists ext artists 0
  let afterPop :=
    if (dictGet? withArtists "artist").getD .null =
        (dictGet? withArtists "artist_1").getD .null then
      dictPop withArtists "artist_1"
    else withArtists
  pure (dictSet afterPop playlist_title (.bool true))

/-- `create_new_row(track, playlist_title, full_version)`
(`deezerus.py:38-78`).  `detailOf` maps the track id to the outcome of the
per-track `fetch_with_retry` call.  The `try` body is the `Except`
computation `body`; the `except` handler formats a log message that itself
subscripts `track['id']`, so a track with no id makes the handler raise
(`RowResult.raised`) instead of returning `None` (`RowResult.absent`). -/
def create_new_row (detailOf : JVal → Except String JVal) (track : JVal)
    (playlist_title : String) (full_version : Bool) : RowResult :=
  let body : Except String (List (String × JVal)) := do
    let track_details ← resolveDetails detailOf track full_version
    let base ← baseRecord track_details
    if full_version then fullModeExtend track_details base playlist_title
    else pure base
  match body with
  | .ok fields => .record fields
  | .error _ =>
    match track.get? "id" with
    | some tid => .absent tid
    | none => .raised "KeyError"

theorem exceptBind_ok (a : α) (f : α → Except ε β) :
    (Except.ok a >>= f : Except ε β) = f a := rfl

theorem exceptBind_error (e : ε) (f : α → Except ε β) :
    (Except.error e >>= f : Except ε β) = Except.error e := rfl

theorem exceptPure (a : α) : (pure a : Except ε α) = Except.ok a := rfl

theorem addArtists_get_other (ns : List JVal) :
    ∀ (fields : List (String × JVal)) (j : Nat) (k : String),
      (∀ m, j < m → k ≠ artistKey m) →
      dictGet? (addArtists fields ns j) k = dictGet? fields k := by
  induction ns with
  | nil => intro fields j k _; rfl
  | cons a rest ih =>
    intro fields j k h
    show dictGet? (addArtists (dictSet fields (artistKey (j + 1)) a) rest (j + 1)) k =
      dictGet? fields k
    rw [ih _ (j + 1) k (fun m hm => h m (by omega))]
    exact dictGet?_set_other fields (artistKey (j + 1)) k a (h (j + 1) (by omega))

theorem addArtists_get_at (ns : List JVal) :
    ∀ (fields : List (String × JVal)) (j i : Nat) (hi : i < ns.length),
      dictGet? (addArtists fields ns j) (artistKey (j + i + 1)) =
        some (ns.get ⟨i, hi⟩) := by
  induction ns with
  | nil => intro fields j i hi; simp at hi
  | cons a rest ih =>
    intro fields j i hi
    show dictGet? (addArtists (dictSet fields (artistKey (j + 1)) a) rest (j + 1))
      (artistKey (j + i + 1)) = _
    cases i with
    | zero =>
      have hfresh : ∀ m, j + 1 < m → artistKey (j + 1) ≠ artistKey m := by
        intro m hm he
        have := artistKey_inj he
        omega
      rw [addArtists_get_other rest _ (j + 1) (artistKey (j + 0 + 1)) hfresh]
      exact dictGet?_set_self fields (artistKey (j + 1)) a
    | succ i2 =>
      have hi2 : i2 < rest.length := by simpa using hi
      have hrec := ih (dictSet fields (artistKey (j + 1)) a) (j + 1) i2 hi2
      have harg : (j + 1) + i2 + 1 = j + (i2 + 1) + 1 := by omega
      rw [harg] at hrec
      exact hrec

theorem resolveDetails_full_ok (detailOf : JVal → Except String JVal)
    (track : JVal) (tid details : JVal)
    (hid : track.get? "id" = some tid) (hdet : detailOf tid = Except.ok details)
    (htr : isTruthy details = true) :
    resolveDetails detailOf track true = Except.ok details := by
  simp [resolveDetails, hid, hdet, exceptBind_ok, htr, exceptPure]

theorem baseRecord_obj (fs : List (String × JVal)) (aName albv : JVal)
    (hartist : pyGetDefaultGet (JVal.obj fs) "artist" "name" = Except.ok aName)
    (halbum : pyGetDefaultGet (JVal.obj fs) "album" "title" = Except.ok albv) :
    baseRecord (JVal.obj fs) = Except.ok
      [("id", (dictGet? fs "id").getD .null),
       ("title", (dictGet? fs "title").getD .null),
       ("artist", aName), ("album", albv),
       ("duration", (dictGet? fs "duration").getD .null),
       ("rank", (dictGet? fs "rank").getD .null)] := by
  simp [baseRecord, pyGetE, hartist, halbum, exceptBind_ok, exceptPure]

theorem fullModeExtend_gap (fs base : List (String × JVal))
    (aName : JVal) (rest : List JVal) (playlist_title : String)
    (hcontrib : contributorNames (JVal.obj fs) = Except.ok (aName :: rest))
    (hbase : dictGet? base "artist" = some aName)
    (htitle : ∀ m : Nat, playlist_title ≠ artistKey m) :
    ∃ fields, fullModeExtend (JVal.obj fs) base playlist_title = Except.ok fields ∧
      dictGet? fields "artist_1" = none ∧
      ∀ (i : Nat) (hi : i + 1 < (aName :: rest).length),
        dictGet? fields (artistKey (i + 2)) = some ((aName :: rest).get ⟨i + 1, hi⟩) := by
  have h1 : ("artist_1" : String) = artistKey 1 := by decide
  set E := dictSet (dictSet (dictSet base "release_date"
      ((dictGet? fs "release_date").getD .null)) "bpm"
      ((dictGet? fs "bpm").getD .null)) "gain"
      ((dictGet? fs "gain").getD .null) with hE
  set W := addArtists E (aName :: rest) 0 with hW
  have hEartist : dictGet? E "artist" = some aName := by
    rw [hE, dictGet?_set_other _ _ _ _ (by decide),
      dictGet?_set_other _ _ _ _ (by decide),
      dictGet?_set_other _ _ _ _ (by decide)]
    exact hbase
  have hWartist : dictGet? W "artist" = some aName := by
    rw [hW, addArtists_get_other (aName :: rest) E 0 "artist"
      (fun m _ => ne_artistKey_of_short "artist" (by decide) m)]
    exact hEartist
  have hW1 : dictGet? W "artist_1" = some aName := by
    rw [hW]
    show dictGet? (addArtists (dictSet E (artistKey (0 + 1)) aName) rest (0 + 1))
      "artist_1" = some aName
    have hfresh : ∀ m, 0 + 1 < m → "artist_1" ≠ artistKey m := by
      intro m hm he
      rw [h1] at he
      have := artistKey_inj he
      omega
    rw [addArtists_get_other rest _ (0 + 1) "artist_1" hfresh, h1]
    exact dictGet?_set_self E (artistKey 1) aName
  have hcond : (dictGet? W "artist").getD JVal.null =
      (dictGet? W "artist_1").getD JVal.null := by
    rw [hWartist, hW1]
  refine ⟨dictSet (dictPop W "artist_1") playlist_title (.bool true), ?_, ?_, ?_⟩
  · simp only [fullModeExtend, pyGetE, exceptBind_ok, hcontrib, exceptPure, ← hE, ← hW]
    rw [if_pos hcond]
  · have hne : ("artist_1" : String) ≠ playlist_title := by
      intro he
      exact htitle 1 (by rw [← he, h1])
    rw [dictGet?_set_other _ _ _ _ hne]
    exact dictGet?_pop_self W "artist_1"
  · intro i hi
    have hne : artistKey (i + 2) ≠ playlist_title :=
      fun he => htitle (i + 2) he.symm
    rw [dictGet?_set_other _ _ _ _ hne]
    have hne1 : artistKey (i + 2) ≠ "artist_1" := by
      rw [h1]
      intro he
      have := artistKey_inj he
      omega
    rw [dictGet?_pop_other _ _ _ hne1]
    have hrec := addArtists_get_at (aName :: rest) E 0 (i + 1) hi
    have harg : 0 + (i + 1) + 1 = i + 2 := by omega
    rw [harg] at hrec
    rw [← hW] at hrec
    exact hrec

/-- Claim C5 (full mode): for a track whose detail payload's contributor
list has a first entry equal to the primary artist name, the built record
has no `artist_1` field while the higher-numbered contributor fields keep
their original numbers `artist_2`, `artist_3`, ... — a gap is left, the
fields are not renumbered.  (The playlist title is assumed not to be one of
the `artist_N` column names itself.) -/
theorem create_new_row_artist_gap
    (detailOf : JVal → Except String JVal) (track : JVal)
    (fs : List (String × JVal)) (tid aName albv : JVal) (rest : List JVal)
    (playlist_title : String)
    (hid : track.get? "id" = some tid)
    (hdet : detailOf tid = Except.ok (JVal.obj fs))
    (htr : isTruthy (JVal.obj fs) = true)
    (hartist : pyGetDefaultGet (JVal.obj fs) "artist" "name" = Except.ok aName)
    (halbum : pyGetDefaultGet (JVal.obj fs) "album" "title" = Except.ok albv)
    (hcontrib : contributorNames (JVal.obj fs) = Except.ok (aName :: rest))
    (htitle : ∀ m : Nat, playlist_title ≠ artistKey m) :
    ∃ fields, create_new_row detailOf track playlist_title true = .record fields ∧
      dictGet? fields "artist_1" = none ∧
      ∀ (i : Nat) (hi : i + 1 < (aName :: rest).length),
        dictGet? fields (artistKey (i + 2)) = some ((aName :: rest).get ⟨i + 1, hi⟩) := by
  have hbaseArtist : dictGet? [("id", (dictGet? fs "id").getD JVal.null),
      ("title", (dictGet? fs "title").getD JVal.null),
      ("artist", aName), ("album", albv),
      ("duration", (dictGet? fs "duration").getD JVal.null),
      ("rank", (dictGet? fs "rank").getD JVal.null)] "artist" = some aName := by
    rw [dictGet?, if_neg (by decide), dictGet?, if_neg (by decide), dictGet?,
      if_pos rfl]
  obtain ⟨fields, hfull, hgap, hkeep⟩ := fullModeExtend_gap fs _ aName rest
    playlist_title hcontrib hbaseArtist htitle
  refine ⟨fields, ?_, hgap, hkeep⟩
  simp only [create_new_row,
    resolveDetails_full_ok detailOf track tid (JVal.obj fs) hid hdet htr,
    exceptBind_ok, baseRecord_obj fs aName albv hartist halbum, if_true, hfull]

/-- The detail payload used by the C5 witness: primary artist "A",
contributors ["A", "B"]. -/
def demoDetailFields : List (String × JVal) :=
  [("id", .num 7), ("artist", .obj [("name", .str "A")]),
   ("contributors", .arr [.obj [("name", .str "A")], .obj [("name", .str "B")]])]

/-- Witness for C5 at a concrete track with contributors ["A", "B"]. -/
theorem create_new_row_artist_gap_witness :
    (∀ m : Nat, ("P" : String) ≠ artistKey m) ∧
      (∃ fields, create_new_row (fun _ => Except.ok (JVal.obj demoDetailFields))
          (JVal.obj [("id", JVal.num 7)]) "P" true = .record fields ∧
        dictGet? fields "artist_1" = none ∧
        ∀ (i : Nat) (hi : i + 1 < (JVal.str "A" :: [JVal.str "B"]).length),
          dictGet? fields (artistKey (i + 2)) =
            some ((JVal.str "A" :: [JVal.str "B"]).get ⟨i + 1, hi⟩)) :=
  ⟨ne_artistKey_of_short "P" (by decide),
   create_new_row_artist_gap (fun _ => Except.ok (JVal.obj demoDetailFields))
     (JVal.obj [("id", JVal.num 7)]) demoDetailFields (JVal.num 7) (JVal.str "A")
     JVal.null [JVal.str "B"] "P" rfl rfl (by decide) rfl rfl rfl
     (ne_artistKey_of_short "P" (by decide))⟩

/-- Counterexample to claim C6: a track entry with a missing id in full
mode does not produce a logged skip — the error handler itself subscripts
`track['id']`, raises, and the exception escapes `create_new_row`. -/
theorem create_new_row_missing_id_raises :
    create_new_row (fun _ => Except.ok JVal.null)
      (JVal.obj [("title", JVal.str "x")]) "P" true = .raised "KeyError" := by
  decide

/-- Claim C6 (amended): for every track entry that does have an id, a
failure while processing it — a failing detail fetch in full mode, or a
malformed payload such as a non-dict `artist` field — is caught, logged
with that id, and `create_new_row` returns absent so the run continues;
a track with a missing id instead makes the handler itself raise. -/
theorem create_new_row_failure_logged
    (detailOf : JVal → Except String JVal) (track tid : JVal)
    (playlist_title : String)
    (hid : track.get? "id" = some tid) :
    (∀ e, detailOf tid = Except.error e →
      create_new_row detailOf track playlist_title true = .absent tid) ∧
    (∀ s, track.get? "artist" = some (JVal.str s) →
      create_new_row detailOf track playlist_title false = .absent tid) := by
  constructor
  · intro e he
    simp only [create_new_row, resolveDetails, hid, exceptBind_ok, he,
      exceptBind_error, hid]
  · intro s hartist
    cases track with
    | obj fs =>
      simp only [JVal.get?] at hid hartist
      simp only [create_new_row, resolveDetails, exceptPure, exceptBind_ok,
        baseRecord, pyGetE, pyGetDefaultGet, hartist, Option.getD_some,
        exceptBind_error, JVal.get?, hid]
    | null => simp [JVal.get?] at hid
    | bool b => simp [JVal.get?] at hid
    | num n => simp [JVal.get?] at hid
    | str s2 => simp [JVal.get?] at hid
    | arr xs => simp [JVal.get?] at hid

/-- Witness for the amended C6 at a concrete track (id 3) whose detail
fetch fails and whose shallow `artist` field is the string "oops". -/
theorem create_new_row_failure_logged_witness :
    (JVal.obj [("id", JVal.num 3), ("artist", JVal.str "oops")]).get? "id" =
        some (JVal.num 3) ∧
      ((∀ e, (fun _ => (Except.error "Max retries exceeded" : Except String JVal))
            (JVal.num 3) = Except.error e →
        create_new_row (fun _ => Except.error "Max retries exceeded")
          (JVal.obj [("id", JVal.num 3), ("artist", JVal.str "oops")]) "P" true =
          .absent (JVal.num 3)) ∧
      (∀ s, (JVal.obj [("id", JVal.num 3), ("artist", JVal.str "oops")]).get?
            "artist" = some (JVal.str s) →
        create_new_row (fun _ => Except.error "Max retries exceeded")
          (JVal.obj [("id", JVal.num 3), ("artist", JVal.str "oops")]) "P" false =
          .absent (JVal.num 3))) :=
  ⟨rfl, create_new_row_failure_logged
    (fun _ => Except.error "Max retries exceeded")
    (JVal.obj [("id", JVal.num 3), ("artist", JVal.str "oops")])
    (JVal.num 3) "P" rfl⟩

/-- `df_tracks.loc[df_tracks['id'] == track['id'], playlist['title']] = True`
(`deezerus.py:101`): set the membership column to true on every row whose id
equals `tid`; other rows are untouched (their value for a fresh column stays
absent/NaN). -/
def locSetTrue (rows : List (List (String × JVal))) (tid : JVal)
    (title : String) : List (List (String × JVal)) :=
  rows.map (fun r =>
    if dictGet? r "id" = some tid then dictSet r title (.bool true) else r)

/-- The `for track in playlist.get("tracks", ...).get("data", ...)` loop
(`deezerus.py:99-106`), threading the DataFrame rows, the known-id set
(`existing_track_ids`) and the list of freshly built rows (`new_rows`).
`track['id']` at line 100 raises on a missing id; a raised exception from
`create_new_row` propagates; `if new_row:` skips `None` and empty dicts. -/
def trackLoop (detailOf : JVal → Except String JVal) (full_version : Bool)
    (title : String) :
    List JVal → List (List (String × JVal)) → List JVal →
    List (List (String × JVal)) →
    Except String
      (List (List (String × JVal)) × List JVal × List (List (String × JVal)))
  | [], rows, existing, newRows => .ok (rows, existing, newRows)
  | track :: ts, rows, existing, newRows =>
    match track.get? "id" with
    | none => .error "KeyError"
    | some tid =>
      if tid ∈ existing then
        trackLoop detailOf full_version title ts (locSetTrue rows tid title)
          existing newRows
      else
        match create_new_row detailOf track title full_version with
        | .record fields =>
          if fields = [] then
            trackLoop detailOf full_version title ts rows existing newRows
          else
            trackLoop detailOf full_version title ts rows (existing ++ [tid])
              (newRows ++ [fields])
        | .absent _ => trackLoop detailOf full_version title ts rows existing newRows
        | .raised msg => .error msg

/-- The body of `create_dataframe`'s playlist loop for one playlist payload
(`deezerus.py:94-110`): read the title and `tracks.data` (the log line at 95
subscripts both, so a missing field raises), recompute
`existing_track_ids = set(df_tracks['id'])`, scan the tracks, then
`pd.concat` the freshly built rows onto the table.  (Playlist titles are
taken to be strings — the only shape the claims are about.) -/
def playlistStep (detailOf : JVal → Except String JVal) (full_version : Bool)
    (rows : List (List (String × JVal))) (pl : JVal) :
    Except String (List (List (String × JVal))) := do
  let title ← match pl.get? "title" with
    | some (.str s) => Except.ok s
    | _ => Except.error "KeyError"
  let tracksData ← match pl.get? "tracks" with
    | some t =>
      match t.get? "data" with
      | some d => Except.ok d
      | none => Except.error "KeyError"
    | none => Except.error "KeyError"
  let tracks ← match tracksData with
    | .arr xs => Except.ok xs
    | _ => Except.error "TypeError"
  let st ← trackLoop detailOf full_version title tracks rows
    (rows.filterMap (fun r => dictGet? r "id")) []
  pure (if st.2.2 = [] then st.1 else st.1 ++ st.2.2)

/-- The `for pid in playlists:` loop of `create_dataframe`
(`deezerus.py:93-110`) starting from the given rows; `playlistFetch` is the
outcome of `fetch_with_retry` on each playlist-detail url, and a fetch
failure propagates uncaught. -/
def processPlaylists (playlistFetch : Int → Except String JVal)
    (detailOf : JVal → Except String JVal) (full_version : Bool) :
    List Int → List (List (String × JVal)) →
    Except String (List (List (String × JVal)))
  | [], rows => .ok rows
  | pid :: pids, rows => do
    let pl ← playlistFetch pid
    let rows2 ← playlistStep detailOf full_version rows pl
    processPlaylists playlistFetch detailOf full_version pids rows2

/-- `create_dataframe(user_id, full_version)` (`deezerus.py:80-112`):
resolve the owner's playlist ids from the fetched listing, then fold the
playlist loop starting from the empty table.  `listingFetch` is the outcome
of the listing fetch inside `get_playlist_ids`; its failure propagates, and
an empty listing makes `max()` raise a `ValueError`. -/
def create_dataframe (listingFetch : Except String (List PlaylistEntry))
    (playlistFetch : Int → Except String JVal)
    (detailOf : JVal → Except String JVal) (full_version : Bool) :
    Except String (List (List (String × JVal))) :=
  match listingFetch with
  | .error e => .error e
  | .ok listing =>
    match get_playlist_ids listing with
    | none => .error "ValueError"
    | some pids => processPlaylists playlistFetch detailOf full_version pids []

/-- Claim C10: on a successfully fetched but empty playlist listing,
`get_playlist_ids` raises (`max()` of an empty sequence) instead of
returning an empty id sequence, and `create_dataframe` propagates that
error. -/
theorem get_playlist_ids_empty_raises
    (playlistFetch : Int → Except String JVal)
    (detailOf : JVal → Except String JVal) (full_version : Bool) :
    get_playlist_ids [] = none ∧
      create_dataframe (Except.ok []) playlistFetch detailOf full_version =
        .error "ValueError" :=
  ⟨rfl, rfl⟩

/-- Counterexample to claim C7: a quota-exhaustion failure of the per-track
detail fetch in full mode does not propagate — `create_new_row`'s blanket
`except` catches it, logs, and returns absent, so the pipeline does catch
the retry-exhaustion error in this case. -/
theorem quota_exhaustion_caught_per_track :
    create_new_row (fun _ => Except.error "Max retries exceeded")
      (JVal.obj [("id", JVal.num 1)]) "P" true = .absent (JVal.num 1) := by
  decide

/-- Claim C7 (amended): a retry-exhaustion failure propagates uncaught to
the top of `create_dataframe` when it happens on the playlist listing fetch
or on a playlist detail fetch; but when it happens on a per-track detail
fetch in full mode, `create_new_row`'s per-track handler catches it and the
track is merely skipped. -/
theorem quota_exhaustion_propagation
    (playlistFetch : Int → Except String JVal)
    (detailOf : JVal → Except String JVal) (full_version : Bool)
    (pid : Int) (pids : List Int) (rows : List (List (String × JVal)))
    (track tid : JVal) (title : String) (e : String)
    (hfetch : playlistFetch pid = Except.error e)
    (hid : track.get? "id" = some tid)
    (hdet : detailOf tid = Except.error "Max retries exceeded") :
    create_dataframe (Except.error "Max retries exceeded") playlistFetch
        detailOf full_version = .error "Max retries exceeded" ∧
      processPlaylists playlistFetch detailOf full_version (pid :: pids) rows =
        .error e ∧
      create_new_row detailOf track title true = .absent tid := by
  refine ⟨rfl, ?_, ?_⟩
  · show (playlistFetch pid >>= fun pl =>
      playlistStep detailOf full_version rows pl >>= fun rows2 =>
      processPlaylists playlistFetch detailOf full_version pids rows2) = .error e
    rw [hfetch, exceptBind_error]
  · exact (create_new_row_failure_logged detailOf track tid title hid).1
      "Max retries exceeded" hdet

/-- Witness for the amended C7 at concrete oracles. -/
theorem quota_exhaustion_propagation_witness :
    ((fun _ : Int => (Except.error "Max retries exceeded" : Except String JVal)) 5 =
        Except.error "Max retries exceeded") ∧
      ((JVal.obj [("id", JVal.num 1)]).get? "id" = some (JVal.num 1)) ∧
      (create_dataframe (Except.error "Max retries exceeded")
          (fun _ => Except.error "Max retries exceeded")
          (fun _ => Except.error "Max retries exceeded") true =
        .error "Max retries exceeded" ∧
      processPlaylists (fun _ => Except.error "Max retries exceeded")
          (fun _ => Except.error "Max retries exceeded") true [5] [] =
        .error "Max retries exceeded" ∧
      create_new_row (fun _ => Except.error "Max retries exceeded")
          (JVal.obj [("id", JVal.num 1)]) "P" true = .absent (JVal.num 1)) :=
  ⟨rfl, rfl,
   quota_exhaustion_propagation (fun _ => Except.error "Max retries exceeded")
     (fun _ => Except.error "Max retries exceeded") true 5 []
     [] (JVal.obj [("id", JVal.num 1)]) (JVal.num 1) "P"
     "Max retries exceeded" rfl rfl rfl⟩

/-- A well-formed shallow track entry carrying just an id, as found in a
playlist's `tracks.data` array. -/
def encTrack (tid : Int) : JVal := .obj [("id", .num tid)]

/-- A well-formed playlist payload: a title and a `tracks.data` array. -/
def encPlaylist (p : String × List Int) : JVal :=
  .obj [("title", .str p.1), ("tracks", .obj [("data", .arr (p.2.map encTrack))])]

/-- A detail oracle that answers every track-detail fetch with a payload
whose id matches the requested one. -/
def encDetail : JVal → Except String JVal :=
  fun v => Except.ok (JVal.obj [("id", v)])

/-- The id cell of a row. -/
def rowId (r : List (String × JVal)) : Option JVal := dictGet? r "id"

/-- The full-mode record built for `encTrack t` before the membership
column is added. -/
def stdRow (t : Int) : List (String × JVal) :=
  [("id", JVal.num t), ("title", JVal.null), ("artist", JVal.null),
   ("album", JVal.null), ("duration", JVal.null), ("rank", JVal.null),
   ("release_date", JVal.null), ("bpm", JVal.null), ("gain", JVal.null)]

theorem create_new_row_enc (t : Int) (title : String) :
    create_new_row encDetail (encTrack t) title true =
      .record (dictSet (stdRow t) title (JVal.bool true)) := rfl

/-- Counterexample to claim C1: in short (default) mode, for track 1
appearing in playlists "P1" and "P2", the single row for id 1 has no true
membership for "P1" — only the membership of later playlists is ever set,
the first-seen playlist's column stays absent. -/
theorem create_dataframe_short_mode_counterexample :
    processPlaylists
        (fun pid => if pid = 1 then Except.ok (encPlaylist ("P1", [1]))
          else Except.ok (encPlaylist ("P2", [1])))
        (fun _ => Except.ok JVal.null) false [1, 2] [] =
      Except.ok [[("id", JVal.num 1), ("title", JVal.null),
        ("artist", JVal.null), ("album", JVal.null), ("duration", JVal.null),
        ("rank", JVal.null), ("P2", JVal.bool true)]] ∧
      dictGet? [("id", JVal.num 1), ("title", JVal.null),
        ("artist", JVal.null), ("album", JVal.null), ("duration", JVal.null),
        ("rank", JVal.null), ("P2", JVal.bool true)] "P1" = none :=
  ⟨rfl, rfl⟩

/-- Counterexample to claim C9: in short (default) mode, ingesting the
playlist "P" containing track 1 twice yields a row whose "P" cell is true,
while ingesting it once yields a row with no "P" cell at all — the two
tables differ in cell values, not merely in column ordering. -/
theorem create_dataframe_not_idempotent_short :
    processPlaylists (fun _ => Except.ok (encPlaylist ("P", [1])))
        (fun _ => Except.ok JVal.null) false [1] [] =
      Except.ok [[("id", JVal.num 1), ("title", JVal.null),
        ("artist", JVal.null), ("album", JVal.null), ("duration", JVal.null),
        ("rank", JVal.null)]] ∧
      processPlaylists (fun _ => Except.ok (encPlaylist ("P", [1])))
        (fun _ => Except.ok JVal.null) false [1, 1] [] =
      Except.ok [[("id", JVal.num 1), ("title", JVal.null),
        ("artist", JVal.null), ("album", JVal.null), ("duration", JVal.null),
        ("rank", JVal.null), ("P", JVal.bool true)]] ∧
      dictGet? [("id", JVal.num 1), ("title", JVal.null),
        ("artist", JVal.null), ("album", JVal.null), ("duration", JVal.null),
        ("rank", JVal.null)] "P" = none ∧
      dictGet? [("id", JVal.num 1), ("title", JVal.null),
        ("artist", JVal.null), ("album", JVal.null), ("duration", JVal.null),
        ("rank", JVal.null), ("P", JVal.bool true)] "P" =
        some (JVal.bool true) :=
  ⟨rfl, rfl, rfl, rfl⟩

/-- How one playlist pass may change an existing row: only the current
membership column is written, and once true it stays true. -/
def evolves (title : String) (r0 r : List (String × JVal)) : Prop :=
  (∀ k, k ≠ title → dictGet? r k = dictGet? r0 k) ∧
  (dictGet? r0 title = some (JVal.bool true) →
    dictGet? r title = some (JVal.bool true))

theorem evolves_refl (title : String) (r : List (String × JVal)) :
    evolves title r r :=
  ⟨fun _ _ => rfl, fun h => h⟩

theorem evolves_trans {title : String} {a b c : List (String × JVal)}
    (h1 : evolves title a b) (h2 : evolves title b c) : evolves title a c :=
  ⟨fun k hk => (h2.1 k hk).trans (h1.1 k hk), fun h => h2.2 (h1.2 h)⟩

theorem evolves_rowId {title : String} {r0 r : List (String × JVal)}
    (htitle : title ≠ "id") (h : evolves title r0 r) : rowId r = rowId r0 :=
  h.1 "id" (fun he => htitle he.symm)

theorem forall₂_trans_comp {α : Type} {R : α → α → Prop}
    (htrans : ∀ a b c, R a b → R b c → R a c) :
    ∀ {xs ys zs : List α}, List.Forall₂ R xs ys → List.Forall₂ R ys zs →
      List.Forall₂ R xs zs := by
  intro xs ys zs h1
  induction h1 generalizing zs with
  | nil => intro h2; cases h2; exact .nil
  | cons hab _ ih =>
    intro h2
    cases h2 with
    | cons hbc h23 => exact .cons (htrans _ _ _ hab hbc) (ih h23)

theorem forall₂_map_self {α : Type} {R : α → α → Prop} (f : α → α) :
    ∀ (l : List α), (∀ a ∈ l, R a (f a)) → List.Forall₂ R l (l.map f) := by
  intro l
  induction l with
  | nil => intro _; exact .nil
  | cons a as ih =>
    intro h
    exact .cons (h a (List.mem_cons_self a as))
      (ih (fun b hb => h b (List.mem_cons_of_mem a hb)))

theorem forall₂_mem_right {α : Type} {R : α → α → Prop} :
    ∀ {xs ys : List α}, List.Forall₂ R xs ys → ∀ y ∈ ys, ∃ x ∈ xs, R x y := by
  intro xs ys h
  induction h with
  | nil => intro y hy; cases hy
  | cons hab _ ih =>
    intro y hy
    rcases List.mem_cons.mp hy with hy | hy
    · exact ⟨_, List.mem_cons_self _ _, hy ▸ hab⟩
    · obtain ⟨x, hx, hxy⟩ := ih y hy
      exact ⟨x, List.mem_cons_of_mem _ hx, hxy⟩

theorem mapSelf {α : Type} (f : α → α) :
    ∀ (l : List α), (∀ a ∈ l, f a = a) → l.map f = l := by
  intro l
  induction l with
  | nil => intro _; rfl
  | cons a as ih =>
    intro h
    rw [List.map_cons, h a (List.mem_cons_self a as),
      ih (fun b hb => h b (List.mem_cons_of_mem a hb))]

theorem evolves_map_rowId {title : String} (htitle : title ≠ "id") :
    ∀ {rows rows2 : List (List (String × JVal))},
      List.Forall₂ (evolves title) rows rows2 →
      rows2.map rowId = rows.map rowId := by
  intro rows rows2 h
  induction h with
  | nil => rfl
  | cons hab _ ih => rw [List.map_cons, List.map_cons, ih, evolves_rowId htitle hab]

theorem locSetTrue_evolves (rows : List (List (String × JVal))) (tid : JVal)
    (title : String) :
    List.Forall₂ (evolves title) rows (locSetTrue rows tid title) := by
  unfold locSetTrue
  apply forall₂_map_self
  intro r _
  by_cases h : dictGet? r "id" = some tid
  · rw [if_pos h]
    exact ⟨fun k hk => dictGet?_set_other r title k (JVal.bool true) hk,
      fun _ => dictGet?_set_self r title (JVal.bool true)⟩
  · rw [if_neg h]
    exact evolves_refl title r

theorem locSetTrue_mem (rows : List (List (String × JVal))) (tid : JVal)
    (title : String) :
    ∀ r2 ∈ locSetTrue rows tid title, rowId r2 = some tid →
      dictGet? r2 title = some (JVal.bool true) := by
  intro r2 hr2 hid2
  obtain ⟨r, hr, rfl⟩ := List.mem_map.mp hr2
  by_cases h : dictGet? r "id" = some tid
  · rw [if_pos h]
    exact dictGet?_set_self r title (JVal.bool true)
  · rw [if_neg h] at hid2 ⊢
    exact absurd hid2 h

theorem dictSet_cons_ne_nil (a : String) (b : JVal)
    (l : List (String × JVal)) (k : String) (v : JVal) :
    dictSet ((a, b) :: l) k v ≠ [] := by
  rw [dictSet]
  split <;> exact List.cons_ne_nil _ _

theorem rowId_encRow (t : Int) (title : String) (htitle : title ≠ "id") :
    rowId (dictSet (stdRow t) title (JVal.bool true)) = some (JVal.num t) := by
  unfold rowId
  rw [dictGet?_set_other _ _ _ _ (fun he => htitle he.symm)]
  rfl

theorem trackLoop_cons_enc (title : String) (t : Int) (ts : List Int)
    (rows : List (List (String × JVal))) (existing : List JVal)
    (newRows : List (List (String × JVal))) :
    trackLoop encDetail true title ((t :: ts).map encTrack) rows existing
        newRows =
      if JVal.num t ∈ existing then
        trackLoop encDetail true title (ts.map encTrack)
          (locSetTrue rows (JVal.num t) title) existing newRows
      else
        trackLoop encDetail true title (ts.map encTrack) rows
          (existing ++ [JVal.num t])
          (newRows ++ [dictSet (stdRow t) title (JVal.bool true)]) := by
  have h1 : (encTrack t).get? "id" = some (JVal.num t) := rfl
  conv_lhs => rw [List.map_cons, trackLoop]
  simp only [h1]
  by_cases hmem : JVal.num t ∈ existing
  · rw [if_pos hmem, if_pos hmem]
  · rw [if_neg hmem, if_neg hmem, create_new_row_enc]
    simp only []
    rw [if_neg (show dictSet (stdRow t) title (JVal.bool true) ≠ [] from
      dictSet_cons_ne_nil "id" (JVal.num t) _ title (JVal.bool true))]

theorem trackLoop_enc (title : String) (htitle : title ≠ "id") :
    ∀ (ts : List Int) (rows : List (List (String × JVal)))
      (existing : List JVal) (newRows : List (List (String × JVal))),
      (∀ v, v ∈ existing ↔ some v ∈ (rows ++ newRows).map rowId) →
      (∀ o ∈ (rows ++ newRows).map rowId, ∃ u : Int, o = some (JVal.num u)) →
      ((rows ++ newRows).map rowId).Nodup →
      (∀ r ∈ newRows, dictGet? r title = some (JVal.bool true)) →
      ∃ rows2 existing2 newRows2,
        trackLoop encDetail true title (ts.map encTrack) rows existing newRows =
          Except.ok (rows2, existing2, newRows2) ∧
        List.Forall₂ (evolves title) rows rows2 ∧
        (∃ delta, newRows2 = newRows ++ delta) ∧
        (∀ r ∈ newRows2, dictGet? r title = some (JVal.bool true)) ∧
        (∀ u ∈ ts, some (JVal.num u) ∈ (rows2 ++ newRows2).map rowId) ∧
        (∀ u ∈ ts, ∀ r ∈ rows2 ++ newRows2, rowId r = some (JVal.num u) →
          dictGet? r title = some (JVal.bool true)) ∧
        (∀ v, v ∈ existing2 ↔ some v ∈ (rows2 ++ newRows2).map rowId) ∧
        (∀ o ∈ (rows2 ++ newRows2).map rowId, ∃ u : Int, o = some (JVal.num u)) ∧
        ((rows2 ++ newRows2).map rowId).Nodup := by
  intro ts
  induction ts with
  | nil =>
    intro rows existing newRows hex hids hnodup hnew
    refine ⟨rows, existing, newRows, rfl, ?_,
      ⟨[], (List.append_nil _).symm⟩, hnew, ?_, ?_, hex, hids, hnodup⟩
    · exact List.forall₂_same.mpr (fun r _ => evolves_refl title r)
    · intro u hu; cases hu
    · intro u hu; cases hu
  | cons t ts ih =>
    intro rows existing newRows hex hids hnodup hnew
    rw [trackLoop_cons_enc]
    by_cases hmem : JVal.num t ∈ existing
    · rw [if_pos hmem]
      have hF1 := locSetTrue_evolves rows (JVal.num t) title
      have hmap1 : (locSetTrue rows (JVal.num t) title).map rowId =
          rows.map rowId := evolves_map_rowId htitle hF1
      have hex1 : ∀ v, v ∈ existing ↔
          some v ∈ ((locSetTrue rows (JVal.num t) title) ++ newRows).map rowId := by
        intro v
        rw [List.map_append, hmap1, ← List.map_append]
        exact hex v
      have hids1 : ∀ o ∈ ((locSetTrue rows (JVal.num t) title) ++ newRows).map
          rowId, ∃ u : Int, o = some (JVal.num u) := by
        intro o ho
        apply hids
        rwa [List.map_append, hmap1, ← List.map_append] at ho
      have hnodup1 :
          (((locSetTrue rows (JVal.num t) title) ++ newRows).map rowId).Nodup := by
        rw [List.map_append, hmap1, ← List.map_append]
        exact hnodup
      obtain ⟨rows2, ex2, new2, heq, hF2, hdelta, hnew2, hcompl2, hmem2, hex2,
        hids2, hnodup2⟩ :=
        ih (locSetTrue rows (JVal.num t) title) existing newRows hex1 hids1
          hnodup1 hnew
      refine ⟨rows2, ex2, new2, heq,
        @forall₂_trans_comp _ (evolves title)
          (fun _ _ _ h1 h2 => evolves_trans h1 h2) _ _ _ hF1 hF2,
        hdelta, hnew2, ?_, ?_, hex2, hids2, hnodup2⟩
      · intro u hu
        rcases List.mem_cons.mp hu with rfl | hu
        · have h0 : some (JVal.num u) ∈ (rows ++ newRows).map rowId :=
            (hex _).mp hmem
          rw [List.map_append] at h0
          rw [List.map_append]
          rcases List.mem_append.mp h0 with h0 | h0
          · apply List.mem_append_left
            rw [evolves_map_rowId htitle hF2, hmap1]
            exact h0
          · apply List.mem_append_right
            obtain ⟨delta, rfl⟩ := hdelta
            rw [List.map_append]
            exact List.mem_append_left _ h0
        · exact hcompl2 u hu
      · intro u hu
        rcases List.mem_cons.mp hu with rfl | hu
        · intro r hr hid
          rcases List.mem_append.mp hr with hr | hr
          · obtain ⟨r1, hr1, hev⟩ := forall₂_mem_right hF2 r hr
            have hid1 : rowId r1 = some (JVal.num u) := by
              rw [← evolves_rowId htitle hev]; exact hid
            exact hev.2 (locSetTrue_mem rows (JVal.num u) title r1 hr1 hid1)
          · exact hnew2 r hr
        · exact hmem2 u hu
    · rw [if_neg hmem]
      set F := dictSet (stdRow t) title (JVal.bool true) with hFdef
      have hidF : rowId F = some (JVal.num t) := rowId_encRow t title htitle
      have hFtitle : dictGet? F title = some (JVal.bool true) :=
        dictGet?_set_self (stdRow t) title (JVal.bool true)
      have hnotin : some (JVal.num t) ∉ (rows ++ newRows).map rowId := by
        intro hcontra
        exact hmem ((hex (JVal.num t)).mpr hcontra)
      have hexN : ∀ v, v ∈ existing ++ [JVal.num t] ↔
          some v ∈ (rows ++ (newRows ++ [F])).map rowId := by
        intro v
        rw [← List.append_assoc, List.map_append]
        constructor
        · intro hv
          rcases List.mem_append.mp hv with hv | hv
          · apply List.mem_append_left
            exact (hex v).mp hv
          · rcases List.mem_singleton.mp hv with rfl
            apply List.mem_append_right
            rw [List.map_singleton, hidF]
            exact List.mem_singleton.mpr rfl
        · intro hv
          rcases List.mem_append.mp hv with hv | hv
          · apply List.mem_append_left
            exact (hex v).mpr hv
          · rw [List.map_singleton, hidF, List.mem_singleton] at hv
            apply List.mem_append_right
            rw [List.mem_singleton]
            exact Option.some.inj hv
      have hidsN : ∀ o ∈ (rows ++ (newRows ++ [F])).map rowId,
          ∃ u : Int, o = some (JVal.num u) := by
        intro o ho
        rw [← List.append_assoc, List.map_append] at ho
        rcases List.mem_append.mp ho with ho | ho
        · exact hids o ho
        · rw [List.map_singleton, hidF, List.mem_singleton] at ho
          exact ⟨t, ho⟩
      have hnodupN : ((rows ++ (newRows ++ [F])).map rowId).Nodup := by
        rw [← List.append_assoc, List.map_append]
        apply List.Nodup.append hnodup
        · rw [List.map_singleton, hidF]
          exact List.nodup_singleton _
        · intro o ho1 ho2
          rw [List.map_singleton, hidF, List.mem_singleton] at ho2
          subst ho2
          exact hnotin ho1
      have hnewN : ∀ r ∈ newRows ++ [F],
          dictGet? r title = some (JVal.bool true) := by
        intro r hr
        rcases List.mem_append.mp hr with hr | hr
        · exact hnew r hr
        · rw [List.mem_singleton] at hr
          subst hr
          exact hFtitle
      obtain ⟨rows2, ex2, new2, heq, hF2, hdelta, hnew2, hcompl2, hmem2, hex2,
        hids2, hnodup2⟩ :=
        ih rows (existing ++ [JVal.num t]) (newRows ++ [F]) hexN hidsN hnodupN
          hnewN
      obtain ⟨delta, hdeltaEq⟩ := hdelta
      refine ⟨rows2, ex2, new2, heq, hF2,
        ⟨F :: delta, by rw [hdeltaEq, List.append_assoc, List.singleton_append]⟩,
        hnew2, ?_, ?_, hex2, hids2, hnodup2⟩
      · intro u hu
        rcases List.mem_cons.mp hu with rfl | hu
        · rw [List.map_append]
          apply List.mem_append_right
          rw [hdeltaEq, List.map_append, List.map_append]
          apply List.mem_append_left
          apply List.mem_append_right
          rw [List.map_singleton, hidF]
          exact List.mem_singleton.mpr rfl
        · exact hcompl2 u hu
      · intro u hu
        rcases List.mem_cons.mp hu with rfl | hu
        · intro r hr hid
          rcases List.mem_append.mp hr with hr | hr
          · obtain ⟨r1, hr1, hev⟩ := forall₂_mem_right hF2 r hr
            have hid1 : rowId r1 = some (JVal.num u) := by
              rw [← evolves_rowId htitle hev]; exact hid
            exact absurd (by
              rw [List.map_append]
              exact List.mem_append_left _
                (List.mem_map.mpr ⟨r1, hr1, hid1⟩)) hnotin
          · exact hnew2 r hr
        · exact hmem2 u hu

theorem playlistStep_enc (title : String) (ts : List Int)
    (rows : List (List (String × JVal))) (htitle : title ≠ "id")
    (hids : ∀ o ∈ rows.map rowId, ∃ u : Int, o = some (JVal.num u))
    (hnodup : (rows.map rowId).Nodup) :
    ∃ rows2 newRows2,
      playlistStep encDetail true rows (encPlaylist (title, ts)) =
        Except.ok (rows2 ++ newRows2) ∧
      List.Forall₂ (evolves title) rows rows2 ∧
      (∀ r ∈ newRows2, dictGet? r title = some (JVal.bool true)) ∧
      (∀ u ∈ ts, some (JVal.num u) ∈ (rows2 ++ newRows2).map rowId) ∧
      (∀ u ∈ ts, ∀ r ∈ rows2 ++ newRows2, rowId r = some (JVal.num u) →
        dictGet? r title = some (JVal.bool true)) ∧
      (∀ o ∈ (rows2 ++ newRows2).map rowId, ∃ u : Int, o = some (JVal.num u)) ∧
      ((rows2 ++ newRows2).map rowId).Nodup := by
  have hex0 : ∀ v, v ∈ rows.filterMap (fun r => dictGet? r "id") ↔
      some v ∈ (rows ++ []).map rowId := by
    intro v
    rw [List.append_nil, List.mem_filterMap, List.mem_map]
    exact Iff.rfl
  have hids0 : ∀ o ∈ (rows ++ []).map rowId, ∃ u : Int, o = some (JVal.num u) := by
    rw [List.append_nil]; exact hids
  have hnodup0 : ((rows ++ []).map rowId).Nodup := by
    rw [List.append_nil]; exact hnodup
  obtain ⟨rows2, ex2, new2, heq, hF2, _, hnew2, hcompl2, hmem2, _, hids2,
    hnodup2⟩ :=
    trackLoop_enc title htitle ts rows (rows.filterMap (fun r => dictGet? r "id"))
      [] hex0 hids0 hnodup0 (fun r hr => absurd hr (List.not_mem_nil r))
  refine ⟨rows2, new2, ?_, hF2, hnew2, hcompl2, hmem2, hids2, hnodup2⟩
  show (trackLoop encDetail true title (ts.map encTrack) rows
      (rows.filterMap (fun r => dictGet? r "id")) [] >>= fun st =>
      pure (if st.2.2 = [] then st.1 else st.1 ++ st.2.2)) =
    Except.ok (rows2 ++ new2)
  rw [heq, exceptBind_ok]
  show (pure (if new2 = [] then rows2 else rows2 ++ new2) :
    Except String (List (List (String × JVal)))) = Except.ok (rows2 ++ new2)
  by_cases hnil : new2 = []
  · subst hnil
    rw [if_pos rfl, List.append_nil]
    rfl
  · rw [if_neg hnil]
    rfl

/-- The aggregator invariant: every row id is a numeric track id, row ids
are pairwise distinct, every track of every processed playlist has a row,
and that row's membership column for each containing playlist is true. -/
def goodRows (pls : List (String × List Int))
    (rows : List (List (String × JVal))) : Prop :=
  (∀ o ∈ rows.map rowId, ∃ u : Int, o = some (JVal.num u)) ∧
  (rows.map rowId).Nodup ∧
  (∀ p ∈ pls, ∀ t ∈ p.2, some (JVal.num t) ∈ rows.map rowId) ∧
  (∀ p ∈ pls, ∀ t ∈ p.2, ∀ r ∈ rows, rowId r = some (JVal.num t) →
    dictGet? r p.1 = some (JVal.bool true))

theorem goodRows_nil : goodRows [] [] :=
  ⟨fun o ho => absurd ho (List.not_mem_nil o), List.nodup_nil,
   fun p hp => absurd hp (List.not_mem_nil p),
   fun p hp => absurd hp (List.not_mem_nil p)⟩

theorem processPlaylists_enc {pf : Int → Except String JVal} :
    ∀ {pids : List Int} {pls : List (String × List Int)},
      List.Forall₂ (fun pid p => pf pid = Except.ok (encPlaylist p)) pids pls →
      (∀ p ∈ pls, p.1 ≠ "id") →
      ∀ (done : List (String × List Int)) (rows : List (List (String × JVal))),
        goodRows done rows →
        ∃ rows2, processPlaylists pf encDetail true pids rows =
            Except.ok rows2 ∧
          goodRows (done ++ pls) rows2 := by
  intro pids pls hall
  induction hall with
  | nil =>
    intro _ done rows hgood
    exact ⟨rows, rfl, by rwa [List.append_nil]⟩
  | @cons pid p pids2 pls2 hfetch htail ih =>
    intro htitles done rows hgood
    obtain ⟨title, ts⟩ := p
    have htitle : title ≠ "id" := htitles (title, ts) (List.mem_cons_self _ _)
    obtain ⟨hids, hnodup, hcompl, hmem⟩ := hgood
    obtain ⟨rows2, new2, hstep, hF2, hnew2, hcompl2, hmem2, hids2, hnodup2⟩ :=
      playlistStep_enc title ts rows htitle hids hnodup
    have hrun : processPlaylists pf encDetail true (pid :: pids2) rows =
        processPlaylists pf encDetail true pids2 (rows2 ++ new2) := by
      show (pf pid >>= fun pl => playlistStep encDetail true rows pl >>=
        fun r2 => processPlaylists pf encDetail true pids2 r2) = _
      rw [hfetch, exceptBind_ok, hstep, exceptBind_ok]
    have hgood2 : goodRows (done ++ [(title, ts)]) (rows2 ++ new2) := by
      refine ⟨hids2, hnodup2, ?_, ?_⟩
      · intro q hq t ht
        rcases List.mem_append.mp hq with hq | hq
        · have h0 := hcompl q hq t ht
          rw [List.map_append]
          apply List.mem_append_left
          rw [evolves_map_rowId htitle hF2]
          exact h0
        · rw [List.mem_singleton] at hq
          subst hq
          exact hcompl2 t ht
      · intro q hq t ht r hr hid
        rcases List.mem_append.mp hq with hq | hq
        · rcases List.mem_append.mp hr with hr | hr
          · obtain ⟨r1, hr1, hev⟩ := forall₂_mem_right hF2 r hr
            have hid1 : rowId r1 = some (JVal.num t) := by
              rw [← evolves_rowId htitle hev]; exact hid
            have hold := hmem q hq t ht r1 hr1 hid1
            by_cases hqt : q.1 = title
            · rw [hqt] at hold ⊢
              exact hev.2 hold
            · rw [hev.1 q.1 hqt]
              exact hold
          · have h0 := hcompl q hq t ht
            rw [← evolves_map_rowId htitle hF2] at h0
            obtain ⟨r1, hr1, hid1⟩ := List.mem_map.mp h0
            rw [List.map_append] at hnodup2
            have hdisj := (List.nodup_append.mp hnodup2).2.2
            exact (hdisj (List.mem_map.mpr ⟨r1, hr1, hid1⟩)
              (List.mem_map.mpr ⟨r, hr, hid⟩)).elim
        · rw [List.mem_singleton] at hq
          subst hq
          exact hmem2 t ht r hr hid
    obtain ⟨rowsF, hrunF, hgoodF⟩ :=
      ih (fun q hq => htitles q (List.mem_cons_of_mem _ hq))
        (done ++ [(title, ts)]) (rows2 ++ new2) hgood2
    refine ⟨rowsF, ?_, ?_⟩
    · rw [hrun]
      exact hrunF
    · rwa [List.append_assoc, List.singleton_append] at hgoodF

theorem filter_rowId_unique :
    ∀ (rows : List (List (String × JVal))) (v : Option JVal),
      (rows.map rowId).Nodup → (∃ r ∈ rows, rowId r = v) →
      (rows.filter (fun r => decide (rowId r = v))).length = 1 := by
  intro rows
  induction rows with
  | nil =>
    intro v _ h
    obtain ⟨r, hr, _⟩ := h
    cases hr
  | cons a as ih =>
    intro v hnodup hex
    rw [List.map_cons, List.nodup_cons] at hnodup
    obtain ⟨hnotin, hnodup2⟩ := hnodup
    by_cases ha : rowId a = v
    · have htail : as.filter (fun r => decide (rowId r = v)) = [] := by
        rw [List.filter_eq_nil_iff]
        intro r hr
        simp only [decide_eq_true_eq]
        intro hcontra
        apply hnotin
        exact List.mem_map.mpr ⟨r, hr, by rw [hcontra, ha]⟩
      rw [List.filter_cons, if_pos (decide_eq_true ha), htail]
      rfl
    · rw [List.filter_cons, if_neg (by simpa using ha)]
      apply ih v hnodup2
      obtain ⟨r, hr, hrv⟩ := hex
      rcases List.mem_cons.mp hr with rfl | hr
      · exact absurd hrv ha
      · exact ⟨r, hr, hrv⟩

/-- Claim C1 (amended): in full mode, for a track id T occurring in more
than one playlist, the final table has exactly one row with id T and that
row's membership column is true for every playlist containing T.  (In short
mode the membership column of the playlist in which T was first added is
never set — see the counterexample.) -/
theorem create_dataframe_dedup_full
    (pf : Int → Except String JVal) (pids : List Int)
    (pls : List (String × List Int)) (T : Int)
    (henc : List.Forall₂ (fun pid p => pf pid = Except.ok (encPlaylist p))
      pids pls)
    (htitles : ∀ p ∈ pls, p.1 ≠ "id")
    (hT : 2 ≤ pls.countP (fun p => decide (T ∈ p.2))) :
    ∃ rows, processPlaylists pf encDetail true pids [] = Except.ok rows ∧
      (rows.filter (fun r => decide (rowId r = some (JVal.num T)))).length = 1 ∧
      (∀ p ∈ pls, T ∈ p.2 → ∀ r ∈ rows, rowId r = some (JVal.num T) →
        dictGet? r p.1 = some (JVal.bool true)) := by
  obtain ⟨rows, hrun, hgood⟩ := processPlaylists_enc henc htitles [] []
    goodRows_nil
  rw [List.nil_append] at hgood
  obtain ⟨hids, hnodup, hcompl, hmem⟩ := hgood
  have hpos : ∃ p ∈ pls, T ∈ p.2 := by
    have h0 : 0 < pls.countP (fun p => decide (T ∈ p.2)) := by omega
    obtain ⟨p, hp, hdec⟩ := List.countP_pos_iff.mp h0
    exact ⟨p, hp, by simpa using hdec⟩
  obtain ⟨p0, hp0, hT0⟩ := hpos
  refine ⟨rows, hrun, ?_, fun p hp hTp r hr hid => hmem p hp T hTp r hr hid⟩
  apply filter_rowId_unique rows (some (JVal.num T)) hnodup
  obtain ⟨r, hr, hrid⟩ := List.mem_map.mp (hcompl p0 hp0 T hT0)
  exact ⟨r, hr, hrid⟩

/-- The playlist oracle for the C1/C9 witnesses: playlist 1 is "A"
containing track 1, playlist 2 is "B" also containing track 1. -/
def pfW : Int → Except String JVal :=
  fun pid => if pid = 1 then Except.ok (encPlaylist ("A", [1]))
    else Except.ok (encPlaylist ("B", [1]))

theorem pfW_forall₂ :
    List.Forall₂ (fun pid p => pfW pid = Except.ok (encPlaylist p)) [1, 2]
      [("A", [1]), ("B", [1])] :=
  List.Forall₂.cons rfl (List.Forall₂.cons rfl List.Forall₂.nil)

/-- Witness for the amended C1: track 1 appears in both playlists. -/
theorem create_dataframe_dedup_full_witness :
    (2 ≤ ([("A", [1]), ("B", [1])] : List (String × List Int)).countP
        (fun p => decide ((1 : Int) ∈ p.2))) ∧
      (∃ rows, processPlaylists pfW encDetail true [1, 2] [] =
          Except.ok rows ∧
        (rows.filter (fun r => decide (rowId r = some (JVal.num 1)))).length
          = 1 ∧
        (∀ p ∈ ([("A", [1]), ("B", [1])] : List (String × List Int)),
          (1 : Int) ∈ p.2 → ∀ r ∈ rows, rowId r = some (JVal.num 1) →
          dictGet? r p.1 = some (JVal.bool true))) :=
  ⟨by decide,
   create_dataframe_dedup_full pfW [1, 2] [("A", [1]), ("B", [1])] 1
     pfW_forall₂ (by decide) (by decide)⟩

theorem locSetTrue_noop (rows : List (List (String × JVal))) (tid : JVal)
    (title : String)
    (h : ∀ r ∈ rows, rowId r = some tid →
      dictGet? r title = some (JVal.bool true)) :
    locSetTrue rows tid title = rows := by
  unfold locSetTrue
  apply mapSelf
  intro r hr
  by_cases hm : dictGet? r "id" = some tid
  · rw [if_pos hm]
    exact dictSet_self r title (JVal.bool true) (h r hr hm)
  · rw [if_neg hm]

theorem trackLoop_noop (title : String) :
    ∀ (ts : List Int) (rows : List (List (String × JVal)))
      (existing : List JVal) (newRows : List (List (String × JVal))),
      (∀ t ∈ ts, JVal.num t ∈ existing) →
      (∀ t ∈ ts, ∀ r ∈ rows, rowId r = some (JVal.num t) →
        dictGet? r title = some (JVal.bool true)) →
      trackLoop encDetail true title (ts.map encTrack) rows existing newRows =
        Except.ok (rows, existing, newRows) := by
  intro ts
  induction ts with
  | nil => intro rows existing newRows _ _; rfl
  | cons t ts ih =>
    intro rows existing newRows hin hmem
    rw [trackLoop_cons_enc, if_pos (hin t (List.mem_cons_self t ts)),
      locSetTrue_noop rows (JVal.num t) title
        (fun r hr hid => hmem t (List.mem_cons_self t ts) r hr hid)]
    exact ih rows existing newRows
      (fun u hu => hin u (List.mem_cons_of_mem t hu))
      (fun u hu => hmem u (List.mem_cons_of_mem t hu))

theorem playlistStep_noop (title : String) (ts : List Int)
    (rows : List (List (String × JVal)))
    (hcompl : ∀ t ∈ ts, some (JVal.num t) ∈ rows.map rowId)
    (hmem : ∀ t ∈ ts, ∀ r ∈ rows, rowId r = some (JVal.num t) →
      dictGet? r title = some (JVal.bool true)) :
    playlistStep encDetail true rows (encPlaylist (title, ts)) =
      Except.ok rows := by
  have hin : ∀ t ∈ ts,
      JVal.num t ∈ rows.filterMap (fun r => dictGet? r "id") := by
    intro t ht
    rw [List.mem_filterMap]
    obtain ⟨r, hr, hrid⟩ := List.mem_map.mp (hcompl t ht)
    exact ⟨r, hr, hrid⟩
  show (trackLoop encDetail true title (ts.map encTrack) rows
      (rows.filterMap (fun r => dictGet? r "id")) [] >>= fun st =>
      pure (if st.2.2 = [] then st.1 else st.1 ++ st.2.2)) = Except.ok rows
  rw [trackLoop_noop title ts rows _ [] hin hmem, exceptBind_ok]
  show (pure (if ([] : List (List (String × JVal))) = [] then rows
      else rows ++ []) : Except String (List (List (String × JVal)))) =
    Except.ok rows
  rw [if_pos rfl]
  rfl

theorem processPlaylists_noop {pf : Int → Except String JVal}
    (rows : List (List (String × JVal))) :
    ∀ {pids : List Int} {pls2 : List (String × List Int)},
      List.Forall₂ (fun pid p => pf pid = Except.ok (encPlaylist p)) pids pls2 →
      (∀ p ∈ pls2, ∀ t ∈ p.2, some (JVal.num t) ∈ rows.map rowId) →
      (∀ p ∈ pls2, ∀ t ∈ p.2, ∀ r ∈ rows, rowId r = some (JVal.num t) →
        dictGet? r p.1 = some (JVal.bool true)) →
      processPlaylists pf encDetail true pids rows = Except.ok rows := by
  intro pids pls2 hall
  induction hall with
  | nil => intro _ _; rfl
  | @cons pid p pids2 pls3 hfetch htail ih =>
    intro hcompl hmem
    obtain ⟨title, ts⟩ := p
    show (pf pid >>= fun pl => playlistStep encDetail true rows pl >>=
      fun r2 => processPlaylists pf encDetail true pids2 r2) = Except.ok rows
    rw [hfetch, exceptBind_ok,
      playlistStep_noop title ts rows
        (fun t ht => hcompl (title, ts) (List.mem_cons_self _ _) t ht)
        (fun t ht => hmem (title, ts) (List.mem_cons_self _ _) t ht),
      exceptBind_ok]
    exact ih (fun q hq => hcompl q (List.mem_cons_of_mem _ hq))
      (fun q hq => hmem q (List.mem_cons_of_mem _ hq))

theorem processPlaylists_append (pf : Int → Except String JVal)
    (d : JVal → Except String JVal) (full : Bool) :
    ∀ (as bs : List Int) (rows : List (List (String × JVal))),
      processPlaylists pf d full (as ++ bs) rows =
        (processPlaylists pf d full as rows) >>=
          processPlaylists pf d full bs := by
  intro as
  induction as with
  | nil => intro bs rows; rfl
  | cons pid as ih =>
    intro bs rows
    cases hpf : pf pid with
    | error e =>
      have hL : processPlaylists pf d full ((pid :: as) ++ bs) rows =
          Except.error e := by
        show (pf pid >>= fun pl => playlistStep d full rows pl >>= fun r2 =>
          processPlaylists pf d full (as ++ bs) r2) = _
        rw [hpf, exceptBind_error]
      have hR : processPlaylists pf d full (pid :: as) rows =
          Except.error e := by
        show (pf pid >>= fun pl => playlistStep d full rows pl >>= fun r2 =>
          processPlaylists pf d full as r2) = _
        rw [hpf, exceptBind_error]
      rw [hL, hR, exceptBind_error]
    | ok pl =>
      cases hps : playlistStep d full rows pl with
      | error e =>
        have hL : processPlaylists pf d full ((pid :: as) ++ bs) rows =
            Except.error e := by
          show (pf pid >>= fun pl2 => playlistStep d full rows pl2 >>=
            fun r2 => processPlaylists pf d full (as ++ bs) r2) = _
          rw [hpf, exceptBind_ok, hps, exceptBind_error]
        have hR : processPlaylists pf d full (pid :: as) rows =
            Except.error e := by
          show (pf pid >>= fun pl2 => playlistStep d full rows pl2 >>=
            fun r2 => processPlaylists pf d full as r2) = _
          rw [hpf, exceptBind_ok, hps, exceptBind_error]
        rw [hL, hR, exceptBind_error]
      | ok r2 =>
        have hL : processPlaylists pf d full ((pid :: as) ++ bs) rows =
            processPlaylists pf d full (as ++ bs) r2 := by
          show (pf pid >>= fun pl2 => playlistStep d full rows pl2 >>=
            fun r3 => processPlaylists pf d full (as ++ bs) r3) = _
          rw [hpf, exceptBind_ok, hps, exceptBind_ok]
        have hR : processPlaylists pf d full (pid :: as) rows =
            processPlaylists pf d full as r2 := by
          show (pf pid >>= fun pl2 => playlistStep d full rows pl2 >>=
            fun r3 => processPlaylists pf d full as r3) = _
          rw [hpf, exceptBind_ok, hps, exceptBind_ok]
        rw [hL, hR]
        exact ih bs r2

/-- Claim C9 (amended): in full mode, ingesting the same fixed playlist set
twice (the second pass discovering no new tracks) yields literally the
same table as ingesting it once.  (In short mode idempotence fails — see
the counterexample.) -/
theorem create_dataframe_idempotent_full
    (pf : Int → Except String JVal) (pids : List Int)
    (pls : List (String × List Int))
    (henc : List.Forall₂ (fun pid p => pf pid = Except.ok (encPlaylist p))
      pids pls)
    (htitles : ∀ p ∈ pls, p.1 ≠ "id") :
    processPlaylists pf encDetail true (pids ++ pids) [] =
      processPlaylists pf encDetail true pids [] := by
  obtain ⟨rows, hrun, hgood⟩ := processPlaylists_enc henc htitles [] []
    goodRows_nil
  rw [List.nil_append] at hgood
  obtain ⟨_, _, hcompl, hmem⟩ := hgood
  rw [processPlaylists_append, hrun, exceptBind_ok,
    processPlaylists_noop rows henc hcompl hmem]

/-- Witness for the amended C9 at the two-playlist oracle. -/
theorem create_dataframe_idempotent_full_witness :
    (∀ p ∈ ([("A", [1]), ("B", [1])] : List (String × List Int)),
        p.1 ≠ "id") ∧
      processPlaylists pfW encDetail true ([1, 2] ++ [1, 2]) [] =
        processPlaylists pfW encDetail true [1, 2] [] :=
  ⟨by decide,
   create_dataframe_idempotent_full pfW [1, 2] [("A", [1]), ("B", [1])]
     pfW_forall₂ (by decide)⟩
